import Mathlib

/-!
# Verification of the pharmacy-claims processing pipeline (`src/main.py`)

Shallow embedding of `PharmacyDataProcessor` and the CLI `main` entry point.

Modelling conventions:
* A parsed JSON object with string values is a `Json` (association list of
  key/value pairs); `field in obj` is key membership, `obj[field]` is lookup.
* An admitted claim (`self.claims` entry, after `_validate_claim` and the
  `npi in self.valid_npis` check) is a `Claim` record a with post-parse
  `price : ℚ` (Python `float(claim["price"])`) and `quantity : ℤ`
  (Python `int(claim["quantity"])`).  Prices are modelled by rationals;
  Python `round(x, 2)` is modelled by `round2` below.
* Python's `dict` preserves insertion order, so `defaultdict` accumulation is
  modelled by an association list updated in place (`updateAssoc`) and
  first-occurrence key order (`dedupFO`).
* `list.sort` / pandas `sort_values` are stable comparison sorts producing an
  order nondecreasing in the key; they are modelled by `List.insertionSort`.
-/

namespace Hippo

/-- A parsed flat JSON object: keys mapped to (string) values. -/
abbrev Json := List (String × String)

/-- Python `field in obj` for a parsed JSON object. -/
def hasField (r : Json) (f : String) : Bool := r.any (fun kv => kv.1 == f)

/-- Python `obj[field]` for a parsed JSON object (defaulting to `""`; in the code the
field is always present when read). -/
def getField (r : Json) (f : String) : String :=
  ((r.find? (fun kv => kv.1 == f)).map Prod.snd).getD ""

/-- The Python value returned by a function body: either an explicit
`return b`, or the implicit `None` when the body falls through. -/
def truthy : Option Bool → Bool
  | none => false
  | some b => b

/-- The `for field in required_fields: if field not in revert: return False`
loop of `_validate_revert` (src/main.py lines 126-128).  Returns `some false`
on the first missing field; falling off the end of the loop returns the
implicit Python `None`, modelled as `none`. -/
def checkRequired (r : Json) : List String → Option Bool
  | [] => none
  | f :: rest => if hasField r f then checkRequired r rest else some false

/-- The function `_validate_revert` (src/main.py lines 122-128).  Checks the required
fields `["id", "claim_id", "timestamp"]`; note the body has no
`return True`, so on success it returns Python `None`. -/
def validate_revert (r : Json) : Option Bool :=
  checkRequired r ["id", "claim_id", "timestamp"]

/-- The admission filter of `load_reverts` (src/main.py lines 98-100):
a raw revert object is appended to `self.reverts` iff
`self._validate_revert(revert)` is truthy. -/
def load_reverts (raw : List Json) : List Json :=
  raw.filter (fun r => truthy (validate_revert r))

/-- An admitted claim (an entry of `self.claims`), with the numeric fields
already parsed as in `calculate_metrics` (`float(claim["price"])`,
`int(claim["quantity"])`). -/
structure Claim where
  id : String
  npi : String
  ndc : String
  price : ℚ
  quantity : ℤ
  timestamp : String
deriving Repr, DecidableEq

abbrev Key := String × String

/-- The grouping key `(npi, ndc)` of src/main.py line 146. -/
def claimKey (c : Claim) : Key := (c.npi, c.ndc)

/-- The per-key accumulator of the `metrics` defaultdict
(src/main.py lines 138-140). -/
structure Acc where
  fills : ℕ
  reverted : ℕ
  total_price : ℚ
  prices : List ℚ
deriving Repr, DecidableEq

/-- The defaultdict default `{"fills": 0, "reverted": 0, "total_price": 0.0,
"prices": []}` (src/main.py line 139). -/
def emptyAcc : Acc := ⟨0, 0, 0, []⟩

/-- Python `price / quantity if quantity > 0 else 0` (src/main.py line 155). -/
def unit_price (c : Claim) : ℚ :=
  if 0 < c.quantity then c.price / (c.quantity : ℚ) else 0

/-- The body of the claims loop of `calculate_metrics`
(src/main.py lines 151-160) acting on one key's accumulator. -/
def updAcc (revIds : List String) (c : Claim) (a : Acc) : Acc :=
  { fills := a.fills + 1
    reverted := if revIds.contains c.id then a.reverted + 1 else a.reverted
    total_price := a.total_price + c.price
    prices := a.prices ++ [unit_price c] }

/-- In-place update of an insertion-ordered dict (`metrics[key]` mutation):
the first entry with key `k` is updated by `f`; a missing key is appended,
initialised from the defaultdict default. -/
def updateAssoc (k : Key) (f : Acc → Acc) : List (Key × Acc) → List (Key × Acc)
  | [] => [(k, f emptyAcc)]
  | (k', a) :: rest =>
      if k' = k then (k', f a) :: rest else (k', a) :: updateAssoc k f rest

/-- The claims loop of `calculate_metrics` (src/main.py lines 143-160):
the final contents of the `metrics` dict, in insertion order. -/
def metricsFold (revIds : List String) (claims : List Claim) : List (Key × Acc) :=
  claims.foldl (fun m c => updateAssoc (claimKey c) (updAcc revIds c) m) []

/-- Python `reverted_claim_ids = \x7brevert["claim_id"] for revert in self.reverts\x7d`
(src/main.py line 135); modelled as the list of ids, with set membership as
list membership. -/
def reverted_claim_ids (reverts : List Json) : List String :=
  reverts.map (fun r => getField r "claim_id")

/-- One element of the output of `calculate_metrics`
(src/main.py lines 169-178). -/
structure MetricRecord where
  npi : String
  ndc : String
  fills : ℕ
  reverted : ℕ
  avg_price : ℚ
  total_price : ℚ
deriving Repr, DecidableEq

/-- Python `round(x, 2)` over the rational model of floats: round `x * 100` to
the nearest integer and divide back.  (`round` rounds a tie upward here while
CPython rounds a float tie to even; no statement below depends on tie
behaviour.) -/
def round2 (x : ℚ) : ℚ := ((round (x * 100) : ℤ) : ℚ) / 100

/-- Finalisation of one `metrics` entry (src/main.py lines 164-178):
`avg_price = sum(prices)/len(prices) if prices else 0.0`, both currency
outputs rounded to 2 decimals. -/
def mkRecord (k : Key) (a : Acc) : MetricRecord :=
  { npi := k.1
    ndc := k.2
    fills := a.fills
    reverted := a.reverted
    avg_price :=
      round2 (if a.prices = [] then 0 else a.prices.sum / (a.prices.length : ℚ))
    total_price := round2 a.total_price }

/-- Lexicographic order on `(npi, ndc)` string pairs: the order of the Python
sort key `(x["npi"], x["ndc"])` (src/main.py line 181). -/
def lexLE (a b : Key) : Prop := a.1 < b.1 ∨ (a.1 = b.1 ∧ a.2 ≤ b.2)

instance : DecidableRel lexLE := fun a b => by unfold lexLE; infer_instance

/-- Comparison of output records by the sort key of src/main.py line 181. -/
def recLE (a b : MetricRecord) : Prop := lexLE (a.npi, a.ndc) (b.npi, b.ndc)

instance : DecidableRel recLE := fun a b => by unfold recLE; infer_instance

/-- The function `calculate_metrics` (src/main.py lines 130-184): fold the claims into the
per-key accumulators, finalise each entry, and sort by `(npi, ndc)`. -/
def calculate_metrics (reverts : List Json) (claims : List Claim) :
    List MetricRecord :=
  List.insertionSort recLE
    ((metricsFold (reverted_claim_ids reverts) claims).map
      (fun p => mkRecord p.1 p.2))

/-- First-occurrence insertion: `acc` unchanged if `x` already present, else
`x` appended.  Models key creation order of a Python dict / pandas group. -/
def insertFO {α : Type} [DecidableEq α] (acc : List α) (x : α) : List α :=
  if x ∈ acc then acc else acc ++ [x]

/-- First-occurrence deduplication (Python dict key order,
`pandas.unique`). -/
def dedupFO {α : Type} [DecidableEq α] (l : List α) : List α :=
  l.foldl insertFO []

/-- The pharmacy store `self.pharmacies` (npi → chain), as loaded contents. -/
abbrev PharmMap := List (String × String)

/-- Lookup `self.pharmacies[npi]` with the `npi in self.pharmacies` membership test:
`some chain` when present. -/
def pharmLookup (ph : PharmMap) (npi : String) : Option String :=
  (ph.find? (fun kv => kv.1 == npi)).map Prod.snd

/-- Pandas `df["price"] / df["quantity"]` (src/main.py line 220): the unit price of
the chain analysis, computed with NO quantity guard.  Over ℚ, `x / 0 = 0`,
whereas the source's float division yields `inf`/`nan` at quantity 0; no
statement below relies on the `quantity = 0` case of this definition. -/
def chain_unit_price (c : Claim) : ℚ := c.price / (c.quantity : ℚ)

/-- The `claims_data` rows of `analyze_chain_recommendations`
(src/main.py lines 200-212) with the derived `unit_price` column
(line 220): `(ndc, chain, unit_price)` for each claim whose npi is a known
pharmacy. -/
def chain_tuples (ph : PharmMap) (claims : List Claim) :
    List (String × String × ℚ) :=
  claims.filterMap
    (fun c => (pharmLookup ph c.npi).map (fun ch => (c.ndc, ch, chain_unit_price c)))

/-- Arithmetic mean of a list (pandas `.mean()`). -/
def listMean (l : List ℚ) : ℚ := l.sum / (l.length : ℚ)

/-- The distinct chains appearing for drug `d` (the groups of
`groupby(["ndc", "chain"])` restricted to `ndc = d`). -/
def chainsFor (ts : List (String × String × ℚ)) (d : String) : List String :=
  dedupFO ((ts.filter (fun t => t.1 == d)).map (fun t => t.2.1))

/-- The unit prices of the `(ndc, chain)` group. -/
def groupPrices (ts : List (String × String × ℚ)) (d ch : String) : List ℚ :=
  (ts.filter (fun t => t.1 == d && t.2.1 == ch)).map (fun t => t.2.2)

/-- The rows of `chain_avg` for drug `d`
(src/main.py lines 222-223, 227-229): each chain with its mean unit price. -/
def chain_avg (ts : List (String × String × ℚ)) (d : String) :
    List (String × ℚ) :=
  (chainsFor ts d).map (fun ch => (ch, listMean (groupPrices ts d ch)))

/-- The `sort_values("avg_price")` comparison (src/main.py line 228). -/
def priceLE (a b : String × ℚ) : Prop := a.2 ≤ b.2

instance : DecidableRel priceLE := fun a b => by unfold priceLE; infer_instance

/-- One `{"name": ..., "avg_price": ...}` entry (src/main.py line 234). -/
structure ChainEntry where
  name : String
  avg_price : ℚ
deriving Repr, DecidableEq

/-- One `{"ndc": ..., "chain": [...]}` result (src/main.py line 237). -/
structure ChainRec where
  ndc : String
  chain : List ChainEntry
deriving Repr, DecidableEq

/-- The `results.sort(key=lambda x: x["ndc"])` comparison
(src/main.py line 239). -/
def chainRecLE (a b : ChainRec) : Prop := a.ndc ≤ b.ndc

instance : DecidableRel chainRecLE := fun a b => by unfold chainRecLE; infer_instance

/-- The function `analyze_chain_recommendations` (src/main.py lines 195-242): for each
drug, the two cheapest `(chain, mean unit price)` groups in ascending price
order, prices rounded to 2 decimals; the report sorted by drug code.  (The
`if not claims_data: return []` early exit of line 214 coincides with the
general computation, which yields `[]` on no rows.) -/
def analyze_chain_recommendations (ph : PharmMap) (claims : List Claim) :
    List ChainRec :=
  List.insertionSort chainRecLE
    ((dedupFO ((chain_tuples ph claims).map (fun t => t.1))).map
      (fun d =>
        ⟨d, ((List.insertionSort priceLE
                (chain_avg (chain_tuples ph claims) d)).take 2).map
              (fun p => ⟨p.1, round2 p.2⟩)⟩))

/-- The `claims_data` rows of `analyze_common_quantities`
(src/main.py lines 249-257): `(ndc, float(quantity))` for each claim whose
npi is a known pharmacy. -/
def qty_tuples (ph : PharmMap) (claims : List Claim) : List (String × ℚ) :=
  claims.filterMap
    (fun c =>
      if (pharmLookup ph c.npi).isSome then some (c.ndc, (c.quantity : ℚ))
      else none)

/-- The quantity column for drug `d` (src/main.py line 267). -/
def qtysFor (ts : List (String × ℚ)) (d : String) : List ℚ :=
  (ts.filter (fun t => t.1 == d)).map (fun t => t.2)

/-- The descending-count comparison of pandas `value_counts()`. -/
def countGE (a b : ℚ × ℕ) : Prop := b.2 ≤ a.2

instance : DecidableRel countGE := fun a b => by unfold countGE; infer_instance

/-- pandas `Series.value_counts()` (src/main.py line 270): each distinct
value with its frequency, sorted by descending frequency. -/
def value_counts (l : List ℚ) : List (ℚ × ℕ) :=
  List.insertionSort countGE ((dedupFO l).map (fun q => (q, l.count q)))

/-- One `{"ndc": ..., "most_prescribed_quantity": [...]}` result
(src/main.py line 273). -/
structure QtyRec where
  ndc : String
  most_prescribed_quantity : List ℚ
deriving Repr, DecidableEq

/-- The `results.sort(key=lambda x: x["ndc"])` comparison
(src/main.py line 275). -/
def qtyRecLE (a b : QtyRec) : Prop := a.ndc ≤ b.ndc

instance : DecidableRel qtyRecLE := fun a b => by unfold qtyRecLE; infer_instance

/-- The function `analyze_common_quantities` (src/main.py lines 244-278): per drug the
top-5 quantities by descending frequency (`value_counts().head(5)`), report
sorted by drug code.  (The `if not claims_data: return []` early exit of
line 259 coincides with the general computation on no rows.) -/
def analyze_common_quantities (ph : PharmMap) (claims : List Claim) :
    List QtyRec :=
  List.insertionSort qtyRecLE
    ((dedupFO ((qty_tuples ph claims).map (fun t => t.1))).map
      (fun d => ⟨d, ((value_counts (qtysFor (qty_tuples ph claims) d)).take 5).map
                      (fun p => p.1)⟩))

/-- One `parser.add_argument` call of `main` (src/main.py lines 284-304):
argument name, whether `required=True`, and the `default` if any. -/
structure ArgSpec where
  name : String
  required : Bool
  default : Option String
deriving Repr, DecidableEq

/-- The four `add_argument` calls of `main` (src/main.py lines 284-304):
the three directories are `required=True`; `--output` is optional with
default `"metrics_output.json"`. -/
def mainArgSpecs : List ArgSpec :=
  [⟨"pharmacy-dir", true, none⟩,
   ⟨"claims-dir", true, none⟩,
   ⟨"reverts-dir", true, none⟩,
   ⟨"output", false, some "metrics_output.json"⟩]

/-- The value supplied for an argument on the command line, if any. -/
def lookupArg (provided : List (String × String)) (n : String) :
    Option String :=
  (provided.find? (fun kv => kv.1 == n)).map Prod.snd

/-- The argparse semantics of `parser.parse_args()` (src/main.py line 306):
a usage error (`none`) iff some `required=True` argument was not provided;
otherwise each argument resolves to its provided value or its default. -/
def parse_args (specs : List ArgSpec) (provided : List (String × String)) :
    Option (List (String × String)) :=
  if specs.all (fun s => !s.required || (lookupArg provided s.name).isSome)
  then some (specs.map
    (fun s => (s.name, ((lookupArg provided s.name).or s.default).getD "")))
  else none

/-- The method `save_results(results, output_file)` writes to the path it is passed
(src/main.py lines 186-193). -/
def save_target (output_file : String) : String := output_file

/-- The parsed arguments of `main`. -/
structure Args where
  pharmacy_dir : String
  claims_dir : String
  reverts_dir : String
  output : String
deriving Repr, DecidableEq

/-- The file names `main` writes its three outputs to
(src/main.py lines 322, 326, 330): `save_results` is called with string
literals; `args.output` is never read after parsing. -/
def main_writes (_args : Args) : List String :=
  [save_target "metrics_output.json",
   save_target "chain_recommendations.json",
   save_target "quantity_analysis.json"]

/-- The claims of a given `(npi, ndc)` key, in input order. -/
def keyClaims (claims : List Claim) (k : Key) : List Claim :=
  claims.filter (fun c => claimKey c = k)

/-- The final accumulator of a key, described extensionally: the loop body of
`calculate_metrics` folded over exactly the claims of that key. -/
def accSpec (revIds : List String) (claims : List Claim) (k : Key) : Acc :=
  (keyClaims claims k).foldl (fun a c => updAcc revIds c a) emptyAcc

/-- The keys of the `metrics` dict in insertion (first-occurrence) order. -/
def keysOf (claims : List Claim) : List Key :=
  dedupFO (claims.map claimKey)

/-! ## Concrete fixtures (cf. the scenarios of spec §8) -/

/-- Fixture: pharmacy reference data with `npi=1`, `chain=CVS`. -/
def pharm0 : PharmMap := [("1", "CVS")]

/-- Fixture: the admitted claim of the spec §8 scenario. -/
def claim0 : Claim := ⟨"c1", "1", "d1", 100, 10, "t"⟩

/-- Fixture: an admitted claim with a negative quantity (`_validate_claim`
only requires that `int(claim["quantity"])` parses, so `-1` is admitted). -/
def claimNeg : Claim := ⟨"c2", "1", "d1", 2, -1, "t"⟩

/-- Fixture: a raw revert with all required fields present. -/
def revert0 : Json := [("id", "r1"), ("claim_id", "c1"), ("timestamp", "t")]

/-- Fixture: the metric record `calculate_metrics` produces for `claim0`. -/
def record0 : MetricRecord := ⟨"1", "d1", 1, 0, 10, 100⟩

/-- Fixture: the chain recommendation produced for `claim0`. -/
def chainRec0 : ChainRec := ⟨"d1", [⟨"CVS", 10⟩]⟩

/-- Fixture: the quantity profile produced for `claim0`. -/
def qtyRec0 : QtyRec := ⟨"d1", [10]⟩

/-! ## Helper lemmas -/

theorem truthy_checkRequired (r : Json) (fs : List String) :
    truthy (checkRequired r fs) = false := by
  induction fs with
  | nil => rfl
  | cons f fs ih =>
    show truthy (if hasField r f then checkRequired r fs else some false) = false
    by_cases h : hasField r f
    · rw [if_pos h]; exact ih
    · rw [if_neg h]; rfl

theorem truthy_validate_revert (r : Json) :
    truthy (validate_revert r) = false := by
  unfold validate_revert
  exact truthy_checkRequired r _

theorem load_reverts_eq_nil (raw : List Json) : load_reverts raw = [] := by
  simp [load_reverts, truthy_validate_revert]

theorem mem_insertFO {α : Type} [DecidableEq α] (acc : List α) (x y : α) :
    y ∈ insertFO acc x ↔ y ∈ acc ∨ y = x := by
  unfold insertFO
  by_cases h : x ∈ acc
  · simp only [if_pos h]
    constructor
    · exact fun hy => Or.inl hy
    · rintro (hy | rfl)
      · exact hy
      · exact h
  · simp [if_neg h]

theorem mem_foldl_insertFO {α : Type} [DecidableEq α] (l : List α) :
    ∀ (acc : List α) (y : α), y ∈ l.foldl insertFO acc ↔ y ∈ acc ∨ y ∈ l := by
  induction l with
  | nil => intro acc y; simp
  | cons x l ih =>
    intro acc y
    rw [List.foldl_cons, ih, mem_insertFO]
    simp only [List.mem_cons]
    tauto

theorem mem_dedupFO {α : Type} [DecidableEq α] (l : List α) (y : α) :
    y ∈ dedupFO l ↔ y ∈ l := by
  unfold dedupFO
  rw [mem_foldl_insertFO]
  simp

theorem nodup_insertFO {α : Type} [DecidableEq α] (acc : List α) (x : α)
    (h : acc.Nodup) : (insertFO acc x).Nodup := by
  unfold insertFO
  by_cases hx : x ∈ acc
  · simpa [if_pos hx]
  · simp [if_neg hx, List.nodup_append, h, hx]

theorem nodup_foldl_insertFO {α : Type} [DecidableEq α] (l : List α) :
    ∀ acc : List α, acc.Nodup → (l.foldl insertFO acc).Nodup := by
  induction l with
  | nil => intro acc h; simpa
  | cons x l ih =>
    intro acc h
    rw [List.foldl_cons]
    exact ih _ (nodup_insertFO acc x h)

theorem nodup_dedupFO {α : Type} [DecidableEq α] (l : List α) :
    (dedupFO l).Nodup :=
  nodup_foldl_insertFO l [] List.nodup_nil

theorem dedupFO_concat {α : Type} [DecidableEq α] (l : List α) (x : α) :
    dedupFO (l ++ [x]) = insertFO (dedupFO l) x := by
  simp [dedupFO, List.foldl_append]

theorem keyClaims_concat (claims : List Claim) (c : Claim) (k : Key) :
    keyClaims (claims ++ [c]) k =
      if claimKey c = k then keyClaims claims k ++ [c]
      else keyClaims claims k := by
  unfold keyClaims
  rw [List.filter_append]
  by_cases h : claimKey c = k <;> simp [h]

theorem keyClaims_eq_nil (claims : List Claim) (k : Key)
    (h : k ∉ claims.map claimKey) : keyClaims claims k = [] := by
  unfold keyClaims
  induction claims with
  | nil => rfl
  | cons c cs ih =>
    simp only [List.map_cons, List.mem_cons] at h
    push_neg at h
    rw [List.filter_cons]
    simp only [decide_eq_true_eq]
    rw [if_neg (fun hc => h.1 hc.symm)]
    exact ih h.2

theorem accSpec_concat (revIds : List String) (claims : List Claim) (c : Claim)
    (k : Key) :
    accSpec revIds (claims ++ [c]) k =
      if claimKey c = k then updAcc revIds c (accSpec revIds claims k)
      else accSpec revIds claims k := by
  unfold accSpec
  rw [keyClaims_concat]
  by_cases h : claimKey c = k
  · rw [if_pos h, if_pos h, List.foldl_append]
    rfl
  · rw [if_neg h, if_neg h]

theorem accSpec_of_not_mem (revIds : List String) (claims : List Claim)
    (k : Key) (h : k ∉ keysOf claims) : accSpec revIds claims k = emptyAcc := by
  unfold accSpec
  rw [keyClaims_eq_nil claims k (fun hk => h ((mem_dedupFO _ _).mpr hk))]
  rfl

theorem updateAssoc_map_mem (ks : List Key) (g : Key → Acc) (k₀ : Key)
    (f : Acc → Acc) (hnd : ks.Nodup) (h : k₀ ∈ ks) :
    updateAssoc k₀ f (ks.map (fun k => (k, g k))) =
      ks.map (fun k => (k, if k = k₀ then f (g k) else g k)) := by
  induction ks with
  | nil => cases h
  | cons k ks ih =>
    rw [List.map_cons, List.map_cons, updateAssoc]
    by_cases hk : k = k₀
    · subst hk
      rw [if_pos rfl]
      congr 1
      · rw [if_pos rfl]
      · apply List.map_congr_left
        intro a ha
        have hne : a ≠ k := fun hak => (List.nodup_cons.mp hnd).1 (hak ▸ ha)
        rw [if_neg hne]
    · rw [if_neg hk, if_neg hk]
      congr 1
      exact ih (List.nodup_cons.mp hnd).2
        ((List.mem_cons.mp h).resolve_left (fun hk0 => hk hk0.symm))

theorem updateAssoc_map_not_mem (ks : List Key) (g : Key → Acc) (k₀ : Key)
    (f : Acc → Acc) (h : k₀ ∉ ks) :
    updateAssoc k₀ f (ks.map (fun k => (k, g k))) =
      ks.map (fun k => (k, g k)) ++ [(k₀, f emptyAcc)] := by
  induction ks with
  | nil => rfl
  | cons k ks ih =>
    have hk : k ≠ k₀ := fun hk => h (hk ▸ List.mem_cons_self k ks)
    have h' : k₀ ∉ ks := fun hk0 => h (List.mem_cons_of_mem _ hk0)
    simp only [List.map_cons, updateAssoc, if_neg hk, List.cons_append]
    rw [ih h']

theorem nodup_keysOf (claims : List Claim) : (keysOf claims).Nodup :=
  nodup_dedupFO _

theorem keysOf_concat (claims : List Claim) (c : Claim) :
    keysOf (claims ++ [c]) = insertFO (keysOf claims) (claimKey c) := by
  unfold keysOf
  rw [List.map_append, List.map_singleton, dedupFO_concat]

/-- Characterisation of the claims loop of `calculate_metrics`: the final
`metrics` dict lists the distinct claim keys in first-occurrence order, each
bound to the loop body folded over exactly that key's claims. -/
theorem metricsFold_eq (revIds : List String) (claims : List Claim) :
    metricsFold revIds claims =
      (keysOf claims).map (fun k => (k, accSpec revIds claims k)) := by
  induction claims using List.reverseRecOn with
  | nil => rfl
  | append_singleton cs c ih =>
    have hstep : metricsFold revIds (cs ++ [c]) =
        updateAssoc (claimKey c) (updAcc revIds c) (metricsFold revIds cs) := by
      simp [metricsFold, List.foldl_append]
    rw [hstep, ih, keysOf_concat]
    by_cases h : claimKey c ∈ keysOf cs
    · rw [updateAssoc_map_mem (keysOf cs) (fun k => accSpec revIds cs k)
        (claimKey c) (updAcc revIds c) (nodup_keysOf cs) h]
      unfold insertFO
      rw [if_pos h]
      apply List.map_congr_left
      intro k hk
      rw [accSpec_concat]
      by_cases hkc : claimKey c = k
      · rw [if_pos hkc, if_pos hkc.symm]
      · rw [if_neg hkc, if_neg (fun hk0 => hkc hk0.symm)]
    · rw [updateAssoc_map_not_mem (keysOf cs) (fun k => accSpec revIds cs k)
        (claimKey c) (updAcc revIds c) h]
      unfold insertFO
      rw [if_neg h, List.map_append, List.map_singleton]
      congr 1
      · apply List.map_congr_left
        intro k hk
        rw [accSpec_concat,
          if_neg (fun hkc : claimKey c = k => h (hkc ▸ hk))]
      · rw [accSpec_concat, if_pos rfl, accSpec_of_not_mem revIds cs _ h]

theorem foldl_updAcc_fills (revIds : List String) (L : List Claim) :
    ∀ a : Acc,
      (L.foldl (fun a c => updAcc revIds c a) a).fills = a.fills + L.length := by
  induction L with
  | nil => intro a; simp
  | cons c L ih =>
    intro a
    rw [List.foldl_cons, ih]
    simp [updAcc]
    omega

theorem foldl_updAcc_reverted (revIds : List String) (L : List Claim) :
    ∀ a : Acc,
      (L.foldl (fun a c => updAcc revIds c a) a).reverted =
        a.reverted + (L.filter (fun c => revIds.contains c.id)).length := by
  induction L with
  | nil => intro a; simp
  | cons c L ih =>
    intro a
    rw [List.foldl_cons, ih, List.filter_cons]
    simp only [updAcc]
    by_cases h : revIds.contains c.id = true
    · rw [if_pos h, if_pos h, List.length_cons]
      omega
    · rw [if_neg h, if_neg h]

theorem foldl_updAcc_prices (revIds : List String) (L : List Claim) :
    ∀ a : Acc,
      (L.foldl (fun a c => updAcc revIds c a) a).prices =
        a.prices ++ L.map unit_price := by
  induction L with
  | nil => intro a; simp
  | cons c L ih =>
    intro a
    rw [List.foldl_cons, ih]
    simp [updAcc]

theorem foldl_updAcc_total (revIds : List String) (L : List Claim) :
    ∀ a : Acc,
      (L.foldl (fun a c => updAcc revIds c a) a).total_price =
        a.total_price + (L.map (fun c => c.price)).sum := by
  induction L with
  | nil => intro a; simp
  | cons c L ih =>
    intro a
    rw [List.foldl_cons, ih]
    simp [updAcc]
    ring

theorem accSpec_fills (revIds : List String) (claims : List Claim) (k : Key) :
    (accSpec revIds claims k).fills = (keyClaims claims k).length := by
  unfold accSpec
  rw [foldl_updAcc_fills]
  simp [emptyAcc]

theorem accSpec_reverted (revIds : List String) (claims : List Claim) (k : Key) :
    (accSpec revIds claims k).reverted =
      ((keyClaims claims k).filter (fun c => revIds.contains c.id)).length := by
  unfold accSpec
  rw [foldl_updAcc_reverted]
  simp [emptyAcc]

theorem accSpec_prices (revIds : List String) (claims : List Claim) (k : Key) :
    (accSpec revIds claims k).prices = (keyClaims claims k).map unit_price := by
  unfold accSpec
  rw [foldl_updAcc_prices]
  simp [emptyAcc]

theorem accSpec_total (revIds : List String) (claims : List Claim) (k : Key) :
    (accSpec revIds claims k).total_price =
      ((keyClaims claims k).map (fun c => c.price)).sum := by
  unfold accSpec
  rw [foldl_updAcc_total]
  simp [emptyAcc]

theorem sum_map_zero {α : Type} (l : List α) :
    (l.map (fun _ => (0 : ℕ))).sum = 0 := by
  induction l with
  | nil => rfl
  | cons x l ih => simp [ih]

theorem sum_map_add_nat {α : Type} (f g : α → ℕ) (l : List α) :
    (l.map (fun x => f x + g x)).sum = (l.map f).sum + (l.map g).sum := by
  induction l with
  | nil => rfl
  | cons x l ih =>
    simp only [List.map_cons, List.sum_cons, ih]
    omega

theorem sum_map_indicator {α : Type} [DecidableEq α] (l : List α) (x : α)
    (hnd : l.Nodup) (h : x ∈ l) :
    (l.map (fun y => if x = y then (1 : ℕ) else 0)).sum = 1 := by
  induction l with
  | nil => cases h
  | cons y l ih =>
    rw [List.map_cons, List.sum_cons]
    rcases List.mem_cons.mp h with rfl | hx
    · rw [if_pos rfl]
      have hz : ∀ z ∈ l, (if x = z then (1 : ℕ) else 0) = 0 := fun z hz =>
        if_neg (fun e => (List.nodup_cons.mp hnd).1 (by rw [e]; exact hz))
      rw [List.map_congr_left hz, sum_map_zero]
    · have hxy : x ≠ y := fun e => (List.nodup_cons.mp hnd).1 (e ▸ hx)
      rw [if_neg hxy, ih (List.nodup_cons.mp hnd).2 hx]

theorem sum_keyClaims_length (cs : List Claim) (ks : List Key)
    (hnd : ks.Nodup) (hcov : ∀ c ∈ cs, claimKey c ∈ ks) :
    (ks.map (fun k => (keyClaims cs k).length)).sum = cs.length := by
  induction cs with
  | nil => exact sum_map_zero ks
  | cons c cs ih =>
    have hstep : ∀ k ∈ ks, (keyClaims (c :: cs) k).length =
        (if claimKey c = k then 1 else 0) + (keyClaims cs k).length := by
      intro k _
      unfold keyClaims
      rw [List.filter_cons]
      by_cases h : claimKey c = k
      · simp [h]
        omega
      · simp [h]
    rw [List.map_congr_left hstep, sum_map_add_nat,
      sum_map_indicator ks (claimKey c) hnd (hcov c (List.mem_cons_self c cs)),
      ih (fun c' hc' => hcov c' (List.mem_cons_of_mem _ hc'))]
    simp [Nat.add_comm]

theorem lexLE_total (a b : Key) : lexLE a b ∨ lexLE b a := by
  unfold lexLE
  rcases lt_trichotomy a.1 b.1 with h | h | h
  · exact Or.inl (Or.inl h)
  · rcases le_total a.2 b.2 with h2 | h2
    · exact Or.inl (Or.inr ⟨h, h2⟩)
    · exact Or.inr (Or.inr ⟨h.symm, h2⟩)
  · exact Or.inr (Or.inl h)

theorem lexLE_trans {a b c : Key} (h1 : lexLE a b) (h2 : lexLE b c) :
    lexLE a c := by
  unfold lexLE at h1 h2 ⊢
  rcases h1 with h1 | ⟨e1, l1⟩
  · rcases h2 with h2 | ⟨e2, l2⟩
    · exact Or.inl (h1.trans h2)
    · exact Or.inl (e2 ▸ h1)
  · rcases h2 with h2 | ⟨e2, l2⟩
    · exact Or.inl (e1.symm ▸ h2)
    · exact Or.inr ⟨e1.trans e2, l1.trans l2⟩

instance : IsTotal MetricRecord recLE :=
  ⟨fun a b => lexLE_total (a.npi, a.ndc) (b.npi, b.ndc)⟩

instance : IsTrans MetricRecord recLE := ⟨fun _ _ _ h1 h2 => lexLE_trans h1 h2⟩

instance : IsTotal ChainRec chainRecLE := ⟨fun a b => le_total a.ndc b.ndc⟩

instance : IsTrans ChainRec chainRecLE := ⟨fun _ _ _ h1 h2 => le_trans h1 h2⟩

instance : IsTotal (String × ℚ) priceLE := ⟨fun a b => le_total a.2 b.2⟩

instance : IsTrans (String × ℚ) priceLE := ⟨fun _ _ _ h1 h2 => le_trans h1 h2⟩

instance : IsTotal (ℚ × ℕ) countGE := ⟨fun a b => le_total b.2 a.2⟩

instance : IsTrans (ℚ × ℕ) countGE := ⟨fun _ _ _ h1 h2 => le_trans h2 h1⟩

instance : IsTotal QtyRec qtyRecLE := ⟨fun a b => le_total a.ndc b.ndc⟩

instance : IsTrans QtyRec qtyRecLE := ⟨fun _ _ _ h1 h2 => le_trans h1 h2⟩

theorem round2_mono {x y : ℚ} (h : x ≤ y) : round2 x ≤ round2 y := by
  unfold round2
  have h1 : round (x * 100) ≤ round (y * 100) := by
    rw [round_eq, round_eq]
    exact Int.floor_mono (by linarith)
  have h2 : ((round (x * 100) : ℤ) : ℚ) ≤ ((round (y * 100) : ℤ) : ℚ) := by
    exact_mod_cast h1
  linarith

/-- The `calculate_metrics` output is, up to the final sort, the finalised record
of each distinct claim key. -/
theorem calculate_metrics_perm (reverts : List Json) (claims : List Claim) :
    (calculate_metrics reverts claims).Perm
      ((keysOf claims).map
        (fun k => mkRecord k (accSpec (reverted_claim_ids reverts) claims k))) := by
  unfold calculate_metrics
  rw [metricsFold_eq, List.map_map]
  exact List.perm_insertionSort recLE _

theorem mem_calculate_metrics {reverts : List Json} {claims : List Claim}
    {rec : MetricRecord} (h : rec ∈ calculate_metrics reverts claims) :
    ∃ k ∈ keysOf claims,
      rec = mkRecord k (accSpec (reverted_claim_ids reverts) claims k) := by
  have hm := (calculate_metrics_perm reverts claims).mem_iff.mp h
  rcases List.mem_map.mp hm with ⟨k, hk, he⟩
  exact ⟨k, hk, he.symm⟩

/-- Evaluation of `calculate_metrics` on the §8 scenario fixture (matching
the expected record of spec §8: fills 1, reverted 0, avg 10, total 100). -/
theorem calculate_metrics_claim0_eval :
    calculate_metrics [] [claim0] = [record0] := by
  with_unfolding_all rfl

theorem calculate_metrics_claim0_eval' :
    calculate_metrics (load_reverts [revert0]) [claim0] = [record0] := by
  rw [load_reverts_eq_nil]
  exact calculate_metrics_claim0_eval

theorem chain_claim0_eval :
    analyze_chain_recommendations pharm0 [claim0] = [chainRec0] := by
  with_unfolding_all rfl

theorem qty_claim0_eval :
    analyze_common_quantities pharm0 [claim0] = [qtyRec0] := by
  with_unfolding_all rfl

/-! ## Claim theorems -/

/-- Claim C1: `_validate_revert` never returns a truthy result — even on a
revert with all required fields present its success path falls through to
Python `None` — so no revert is admitted by `load_reverts`, the reverted-id
set is empty, and every metric record has `reverted = 0`. -/
theorem claim1_reverts_never_admitted (raw : List Json) (claims : List Claim) :
    (∀ r : Json, truthy (validate_revert r) = false) ∧
    load_reverts raw = [] ∧
    reverted_claim_ids (load_reverts raw) = [] ∧
    ∀ rec ∈ calculate_metrics (load_reverts raw) claims, rec.reverted = 0 := by
  refine ⟨truthy_validate_revert, load_reverts_eq_nil raw, ?_, ?_⟩
  · rw [load_reverts_eq_nil raw]
    rfl
  intro rec hrec
  rcases mem_calculate_metrics hrec with ⟨k, hk, rfl⟩
  show (accSpec (reverted_claim_ids (load_reverts raw)) claims k).reverted = 0
  rw [accSpec_reverted, load_reverts_eq_nil raw]
  show ((keyClaims claims k).filter
    (fun c => (reverted_claim_ids []).contains c.id)).length = 0
  simp [reverted_claim_ids]

theorem claim1_witness :
    load_reverts [revert0] = [] ∧ record0.reverted = 0 := by
  refine ⟨(claim1_reverts_never_admitted [revert0] [claim0]).2.1, ?_⟩
  exact (claim1_reverts_never_admitted [revert0] [claim0]).2.2.2 record0
    (by rw [calculate_metrics_claim0_eval']; exact List.mem_singleton_self _)

/-- Claim C2 counterexample: the claim asserts that in both
`calculate_metrics` and `analyze_chain_recommendations` a claim with
quantity ≤ 0 yields unit price 0.  In `analyze_chain_recommendations` the
unit price is the unguarded `price / quantity`, so the admitted claim
`claimNeg` (price 2, quantity -1) yields `-2`, not `0`, and `-2` is what the
report shows. -/
theorem claim2_counterexample :
    claimNeg.quantity ≤ 0 ∧
    chain_unit_price claimNeg = -2 ∧
    chain_unit_price claimNeg ≠ 0 ∧
    analyze_chain_recommendations pharm0 [claimNeg] =
      [⟨"d1", [⟨"CVS", -2⟩]⟩] := by
  refine ⟨by decide, by with_unfolding_all rfl, by with_unfolding_all decide,
    by with_unfolding_all rfl⟩

/-- Claim C2 (amended): only `calculate_metrics` guards the division — there
a claim with quantity ≤ 0 yields unit price 0; in
`analyze_chain_recommendations` the unit price is the unguarded
`price / quantity`, so a claim with negative quantity and positive price
yields a negative unit price, not 0. -/
theorem claim2_amended_guard_only_in_metrics :
    (∀ c : Claim, c.quantity ≤ 0 → unit_price c = 0) ∧
    (∀ c : Claim, c.quantity < 0 → 0 < c.price → chain_unit_price c < 0) := by
  constructor
  · intro c hc
    exact if_neg (not_lt.mpr hc)
  · intro c hq hp
    unfold chain_unit_price
    apply div_neg_of_pos_of_neg hp
    exact_mod_cast hq

theorem claim2_witness :
    unit_price claimNeg = 0 ∧ chain_unit_price claimNeg < 0 :=
  ⟨claim2_amended_guard_only_in_metrics.1 claimNeg (by decide),
   claim2_amended_guard_only_in_metrics.2 claimNeg (by decide)
     (by with_unfolding_all decide)⟩

/-- Claim C3 counterexample: the claim asserts all four CLI arguments are
required.  An invocation supplying only the three directory arguments (no
`--output`) parses successfully: `--output` is declared with a default, not
`required=True`. -/
theorem claim3_counterexample :
    lookupArg [("pharmacy-dir", "p"), ("claims-dir", "c"), ("reverts-dir", "r")]
      "output" = none ∧
    parse_args mainArgSpecs
      [("pharmacy-dir", "p"), ("claims-dir", "c"), ("reverts-dir", "r")] =
      some [("pharmacy-dir", "p"), ("claims-dir", "c"), ("reverts-dir", "r"),
        ("output", "metrics_output.json")] :=
  ⟨rfl, rfl⟩

/-- Claim C3 (amended): only the three directory arguments are required;
`--output` is optional with default `metrics_output.json`.  Argument parsing
fails with a usage error exactly when one of the three directory arguments
is missing. -/
theorem claim3_amended_three_required (provided : List (String × String)) :
    parse_args mainArgSpecs provided = none ↔
      (lookupArg provided "pharmacy-dir" = none ∨
       lookupArg provided "claims-dir" = none ∨
       lookupArg provided "reverts-dir" = none) := by
  cases h1 : lookupArg provided "pharmacy-dir" <;>
    cases h2 : lookupArg provided "claims-dir" <;>
      cases h3 : lookupArg provided "reverts-dir" <;>
        simp [parse_args, mainArgSpecs, h1, h2, h3]

/-- Claim C4: the sum of the `fills` fields over all metric records equals
the number of admitted claims. -/
theorem claim4_fills_sum (reverts : List Json) (claims : List Claim) :
    ((calculate_metrics reverts claims).map (fun rec => rec.fills)).sum =
      claims.length := by
  rw [((calculate_metrics_perm reverts claims).map (fun rec => rec.fills)).sum_eq,
    List.map_map]
  have h : ∀ k ∈ keysOf claims,
      ((fun rec => rec.fills) ∘
        (fun k => mkRecord k (accSpec (reverted_claim_ids reverts) claims k))) k =
      (keyClaims claims k).length := by
    intro k _
    exact accSpec_fills _ _ _
  rw [List.map_congr_left h]
  exact sum_keyClaims_length claims (keysOf claims) (nodup_keysOf claims)
    (fun c hc => (mem_dedupFO _ _).mpr (List.mem_map_of_mem claimKey hc))

/-- Claim C5: in every metric record the reverted count is at most the fill
count. -/
theorem claim5_reverted_le_fills (reverts : List Json) (claims : List Claim) :
    ∀ rec ∈ calculate_metrics reverts claims, rec.reverted ≤ rec.fills := by
  intro rec hrec
  rcases mem_calculate_metrics hrec with ⟨k, _, rfl⟩
  show (accSpec (reverted_claim_ids reverts) claims k).reverted ≤
    (accSpec (reverted_claim_ids reverts) claims k).fills
  rw [accSpec_reverted, accSpec_fills]
  exact List.length_filter_le _ _

theorem claim5_witness : record0.reverted ≤ record0.fills :=
  claim5_reverted_le_fills [] [claim0] record0
    (by rw [calculate_metrics_claim0_eval]; exact List.mem_singleton_self _)

/-- Claim C6: a claim with quantity ≤ 0 contributes unit price 0, and every
metric record reports `avg_price` as the arithmetic mean of the unit prices
of its key's claims and `total_price` as the sum of their prices, each
rounded to 2 decimal places. -/
theorem claim6_avg_price (reverts : List Json) (claims : List Claim) :
    (∀ c : Claim, c.quantity ≤ 0 → unit_price c = 0) ∧
    ∀ rec ∈ calculate_metrics reverts claims,
      rec.avg_price =
        round2 (listMean ((keyClaims claims (rec.npi, rec.ndc)).map unit_price)) ∧
      rec.total_price =
        round2 (((keyClaims claims (rec.npi, rec.ndc)).map
          (fun c => c.price)).sum) := by
  refine ⟨fun c hc => if_neg (not_lt.mpr hc), ?_⟩
  intro rec hrec
  rcases mem_calculate_metrics hrec with ⟨k, hk, rfl⟩
  have hkey : ((mkRecord k (accSpec (reverted_claim_ids reverts) claims k)).npi,
      (mkRecord k (accSpec (reverted_claim_ids reverts) claims k)).ndc) = k :=
    Prod.mk.eta
  rw [hkey]
  have hne : (keyClaims claims k).map unit_price ≠ [] := by
    rcases List.mem_map.mp ((mem_dedupFO _ _).mp hk) with ⟨c, hc, hck⟩
    have hcm : c ∈ keyClaims claims k := by
      unfold keyClaims
      rw [List.mem_filter]
      exact ⟨hc, by simp [hck]⟩
    exact List.ne_nil_of_mem (List.mem_map_of_mem unit_price hcm)
  constructor
  · show round2 (if (accSpec (reverted_claim_ids reverts) claims k).prices = []
        then 0
        else (accSpec (reverted_claim_ids reverts) claims k).prices.sum /
          ((accSpec (reverted_claim_ids reverts) claims k).prices.length : ℚ)) =
      round2 (listMean ((keyClaims claims k).map unit_price))
    rw [accSpec_prices, if_neg hne]
    rfl
  · show round2 (accSpec (reverted_claim_ids reverts) claims k).total_price =
      round2 (((keyClaims claims k).map (fun c => c.price)).sum)
    rw [accSpec_total]

theorem claim6_witness :
    record0.avg_price =
      round2 (listMean ((keyClaims [claim0]
        (record0.npi, record0.ndc)).map unit_price)) :=
  ((claim6_avg_price [] [claim0]).2 record0
    (by rw [calculate_metrics_claim0_eval]; exact List.mem_singleton_self _)).1

/-- Claim C7: the metric list is sorted ascending by the `(npi, ndc)` string
key, its keys are pairwise distinct, each distinct key of the admitted
claims appears exactly once, and each record's fill count counts exactly the
claims of its own key (so no claim contributes to more than one key). -/
theorem claim7_sorted_unique (reverts : List Json) (claims : List Claim) :
    List.Sorted recLE (calculate_metrics reverts claims) ∧
    ((calculate_metrics reverts claims).map
      (fun rec => (rec.npi, rec.ndc))).Nodup ∧
    (∀ k : Key,
      k ∈ (calculate_metrics reverts claims).map
        (fun rec => (rec.npi, rec.ndc)) ↔ k ∈ claims.map claimKey) ∧
    ∀ rec ∈ calculate_metrics reverts claims,
      rec.fills = (keyClaims claims (rec.npi, rec.ndc)).length := by
  have hperm := (calculate_metrics_perm reverts claims).map
    (fun rec => (rec.npi, rec.ndc))
  have hmm : ((keysOf claims).map
      (fun k => mkRecord k (accSpec (reverted_claim_ids reverts) claims k))).map
        (fun rec => (rec.npi, rec.ndc)) = keysOf claims := by
    rw [List.map_map]
    have h : ∀ k ∈ keysOf claims,
        ((fun rec => (rec.npi, rec.ndc)) ∘
          (fun k => mkRecord k
            (accSpec (reverted_claim_ids reverts) claims k))) k = k :=
      fun k _ => Prod.mk.eta
    rw [List.map_congr_left h]
    simp
  refine ⟨?_, ?_, ?_, ?_⟩
  · exact List.sorted_insertionSort recLE _
  · have hnd := nodup_keysOf claims
    rw [← hmm] at hnd
    exact hperm.nodup_iff.mpr hnd
  · intro k
    constructor
    · intro hkk
      have hm := hperm.mem_iff.mp hkk
      rw [hmm] at hm
      exact (mem_dedupFO _ _).mp hm
    · intro hkk
      apply hperm.mem_iff.mpr
      rw [hmm]
      exact (mem_dedupFO _ _).mpr hkk
  · intro rec hrec
    rcases mem_calculate_metrics hrec with ⟨k, _, rfl⟩
    have hkey : ((mkRecord k (accSpec (reverted_claim_ids reverts) claims k)).npi,
        (mkRecord k (accSpec (reverted_claim_ids reverts) claims k)).ndc) = k :=
      Prod.mk.eta
    rw [hkey]
    exact accSpec_fills _ _ _

theorem claim7_witness :
    record0.fills = (keyClaims [claim0] (record0.npi, record0.ndc)).length :=
  (claim7_sorted_unique [] [claim0]).2.2.2 record0
    (by rw [calculate_metrics_claim0_eval]; exact List.mem_singleton_self _)

/-- Claim C8: each drug's chain list has at most 2 entries — exactly
`min 2 (number of chains for that drug)`, so all chains are returned when
fewer than 2 exist — the list is ascending both in the reported (rounded)
prices and in the underlying mean unit prices, each listed price is the
rounded mean unit price of its `(drug, chain)` group, and the report is
sorted ascending by drug code. -/
theorem claim8_chain_recommendations (ph : PharmMap) (claims : List Claim) :
    List.Sorted chainRecLE (analyze_chain_recommendations ph claims) ∧
    ∀ e ∈ analyze_chain_recommendations ph claims,
      e.chain.length = min 2 (chainsFor (chain_tuples ph claims) e.ndc).length ∧
      e.chain.length ≤ 2 ∧
      List.Sorted (fun p q : ChainEntry => p.avg_price ≤ q.avg_price) e.chain ∧
      List.Sorted (fun p q : ChainEntry =>
        listMean (groupPrices (chain_tuples ph claims) e.ndc p.name) ≤
          listMean (groupPrices (chain_tuples ph claims) e.ndc q.name)) e.chain ∧
      ∀ p ∈ e.chain,
        p.avg_price =
          round2 (listMean (groupPrices (chain_tuples ph claims) e.ndc p.name)) := by
  constructor
  · exact List.sorted_insertionSort chainRecLE _
  intro e he
  have he' : e ∈ (dedupFO ((chain_tuples ph claims).map (fun t => t.1))).map
      (fun d => (⟨d, ((List.insertionSort priceLE
        (chain_avg (chain_tuples ph claims) d)).take 2).map
          (fun p => ⟨p.1, round2 p.2⟩)⟩ : ChainRec)) :=
    (List.perm_insertionSort chainRecLE _).mem_iff.mp he
  rcases List.mem_map.mp he' with ⟨d, hd, rfl⟩
  have hmeans : ∀ q ∈ (List.insertionSort priceLE
      (chain_avg (chain_tuples ph claims) d)).take 2,
      q.2 = listMean (groupPrices (chain_tuples ph claims) d q.1) := by
    intro q hq
    have hq2 : q ∈ chain_avg (chain_tuples ph claims) d :=
      (List.perm_insertionSort priceLE _).mem_iff.mp (List.mem_of_mem_take hq)
    rcases List.mem_map.mp hq2 with ⟨ch, hch, rfl⟩
    rfl
  refine ⟨?_, ?_, ?_, ?_, ?_⟩
  · show (((List.insertionSort priceLE
        (chain_avg (chain_tuples ph claims) d)).take 2).map
          (fun p => (⟨p.1, round2 p.2⟩ : ChainEntry))).length =
      min 2 (chainsFor (chain_tuples ph claims) d).length
    simp [chain_avg]
  · show (((List.insertionSort priceLE
        (chain_avg (chain_tuples ph claims) d)).take 2).map
          (fun p => (⟨p.1, round2 p.2⟩ : ChainEntry))).length ≤ 2
    simp [chain_avg]
  · show List.Sorted (fun p q : ChainEntry => p.avg_price ≤ q.avg_price)
      (((List.insertionSort priceLE
        (chain_avg (chain_tuples ph claims) d)).take 2).map
          (fun p => (⟨p.1, round2 p.2⟩ : ChainEntry)))
    apply List.Pairwise.map (R := priceLE)
    · exact fun a b hab => round2_mono hab
    · exact List.Pairwise.sublist (List.take_sublist 2 _)
        (List.sorted_insertionSort priceLE _)
  · show List.Sorted _
      (((List.insertionSort priceLE
        (chain_avg (chain_tuples ph claims) d)).take 2).map
          (fun p => (⟨p.1, round2 p.2⟩ : ChainEntry)))
    have hpw : ((List.insertionSort priceLE
        (chain_avg (chain_tuples ph claims) d)).take 2).Pairwise
        (fun a b : String × ℚ =>
          listMean (groupPrices (chain_tuples ph claims) d a.1) ≤
            listMean (groupPrices (chain_tuples ph claims) d b.1)) := by
      refine List.Pairwise.imp_of_mem ?_
        (List.Pairwise.sublist (List.take_sublist 2 _)
          (List.sorted_insertionSort priceLE _))
      intro a b ha hb hab
      rw [← hmeans a ha, ← hmeans b hb]
      exact hab
    exact List.Pairwise.map _ (fun a b h => h) hpw
  · intro p hp
    rcases List.mem_map.mp hp with ⟨q, hq, rfl⟩
    have hq2 : q ∈ chain_avg (chain_tuples ph claims) d :=
      (List.perm_insertionSort priceLE _).mem_iff.mp (List.mem_of_mem_take hq)
    rcases List.mem_map.mp hq2 with ⟨ch, hch, rfl⟩
    rfl

theorem claim8_witness :
    chainRec0.chain.length =
      min 2 (chainsFor (chain_tuples pharm0 [claim0]) chainRec0.ndc).length ∧
    chainRec0.chain.length ≤ 2 := by
  have h := (claim8_chain_recommendations pharm0 [claim0]).2 chainRec0
    (by rw [chain_claim0_eval]; exact List.mem_singleton_self _)
  exact ⟨h.1, h.2.1⟩

/-- Claim C9: each drug's most-prescribed-quantities list has at most 5
entries, in descending order of frequency among the admitted claims of that
drug, and the report is sorted ascending by drug code. -/
theorem claim9_quantity_profile (ph : PharmMap) (claims : List Claim) :
    List.Sorted qtyRecLE (analyze_common_quantities ph claims) ∧
    ∀ e ∈ analyze_common_quantities ph claims,
      e.most_prescribed_quantity.length ≤ 5 ∧
      e.most_prescribed_quantity.Pairwise
        (fun q1 q2 => (qtysFor (qty_tuples ph claims) e.ndc).count q2 ≤
          (qtysFor (qty_tuples ph claims) e.ndc).count q1) := by
  constructor
  · exact List.sorted_insertionSort qtyRecLE _
  intro e he
  have he' : e ∈ (dedupFO ((qty_tuples ph claims).map (fun t => t.1))).map
      (fun d => (⟨d, ((value_counts (qtysFor (qty_tuples ph claims) d)).take 5).map
        (fun p => p.1)⟩ : QtyRec)) :=
    (List.perm_insertionSort qtyRecLE _).mem_iff.mp he
  rcases List.mem_map.mp he' with ⟨d, hd, rfl⟩
  constructor
  · show (((value_counts (qtysFor (qty_tuples ph claims) d)).take 5).map
      (fun p => p.1)).length ≤ 5
    rw [List.length_map, List.length_take]
    omega
  · show (((value_counts (qtysFor (qty_tuples ph claims) d)).take 5).map
      (fun p => p.1)).Pairwise
        (fun q1 q2 => (qtysFor (qty_tuples ph claims) d).count q2 ≤
          (qtysFor (qty_tuples ph claims) d).count q1)
    have hmem : ∀ p ∈ (value_counts (qtysFor (qty_tuples ph claims) d)).take 5,
        p.2 = (qtysFor (qty_tuples ph claims) d).count p.1 := by
      intro p hp
      have hp2 : p ∈ value_counts (qtysFor (qty_tuples ph claims) d) :=
        List.mem_of_mem_take hp
      unfold value_counts at hp2
      have hp3 := (List.perm_insertionSort countGE _).mem_iff.mp hp2
      rcases List.mem_map.mp hp3 with ⟨q, hq, rfl⟩
      rfl
    have hpw : ((value_counts (qtysFor (qty_tuples ph claims) d)).take 5).Pairwise
        countGE :=
      List.Pairwise.sublist (List.take_sublist 5 _)
        (List.sorted_insertionSort countGE _)
    have hpw2 : ((value_counts (qtysFor (qty_tuples ph claims) d)).take 5).Pairwise
        (fun a b : ℚ × ℕ => (qtysFor (qty_tuples ph claims) d).count b.1 ≤
          (qtysFor (qty_tuples ph claims) d).count a.1) := by
      refine List.Pairwise.imp_of_mem ?_ hpw
      intro a b ha hb hab
      rw [← hmem a ha, ← hmem b hb]
      exact hab
    exact List.Pairwise.map _ (fun a b h => h) hpw2

theorem claim9_witness : qtyRec0.most_prescribed_quantity.length ≤ 5 :=
  ((claim9_quantity_profile pharm0 [claim0]).2 qtyRec0
    (by rw [qty_claim0_eval]; exact List.mem_singleton_self _)).1

/-- Claim C10: `main` writes its three outputs to the fixed file names
`metrics_output.json`, `chain_recommendations.json` and
`quantity_analysis.json`; the parsed `--output` value has no effect on the
written file names. -/
theorem claim10_output_ignored :
    (∀ a : Args, main_writes a =
      ["metrics_output.json", "chain_recommendations.json",
       "quantity_analysis.json"]) ∧
    ∀ a b : Args, main_writes a = main_writes b :=
  ⟨fun _ => rfl, fun _ _ => rfl⟩

end Hippo
